import Mathlib

/-!
Verification of the field-intensity calculator of
`boat_tutorials/acoustics/SL_3_Near_Field_and_Source_Level.ipynb`.

The notebook's only computational unit is the function
`far_and_full_field_intensity_on_axis(f, a, SL)`, which, from a frequency
`f` (kHz), a piston radius `a` (m) and a source level `SL` (dB), computes
three sequences over a fixed range axis `np.linspace(0.01, 5, 200)`: the
axis itself, the far-field intensity in dB, and the exact on-axis
("full-field") intensity in dB.

The embedding below translates that function into real arithmetic: every
numpy expression becomes the corresponding operation on `ℝ` (or `ℂ` for the
complex exponentials), and the arrays become lists obtained by mapping the
pointwise expressions over the sample list.  The source reads only the two
module constants `rho0` and `c` and mutates nothing, so each sequence is a
plain function of `(f, a, SL)`.
-/

namespace BoatAcoustics

noncomputable section

open Real

/-- Constant `rho0 = 1` from the notebook. -/
def rho0 : ℝ := 1

/-- Constant `c = 1500` (sound speed, m/s) from the notebook. -/
def c : ℝ := 1500

/-- `omega = 2 * np.pi * f * 1000`: angular frequency for `f` in kHz. -/
def omega (f : ℝ) : ℝ := 2 * Real.pi * f * 1000

/-- `k = omega / c`: wavenumber. -/
def k (f : ℝ) : ℝ := omega f / c

/-- `SL_lin = 10**(SL / 20)`: source level in linear units. -/
def SL_lin (SL : ℝ) : ℝ := (10 : ℝ) ^ (SL / 20)

/-- `U0 = SL_lin / (rho0 * c * k * a * a / 2)`: particle velocity amplitude. -/
def U0 (f a SL : ℝ) : ℝ := SL_lin SL / (rho0 * c * k f * a * a / 2)

/-- The `i`-th sample of `np.linspace(0.01, 5, 200)` in exact arithmetic:
`0.01 + i * (5 - 0.01) / 199` (numpy's start + i * step with
step = (stop - start) / (num - 1)). -/
def x_pt (i : ℕ) : ℝ := 0.01 + i * ((5 - 0.01) / 199)

/-- `x_axis = np.linspace(0.01, 5, 200)` as the list of its 200 samples. -/
def x_axis : List ℝ := (List.range 200).map x_pt

/-- Pointwise far-field pressure: `0.5 * c * U0 * k * a * a / x`. -/
def P_far_pt (f a SL x : ℝ) : ℝ := 0.5 * c * U0 f a SL * k f * a * a / x

/-- Pointwise far-field intensity: `10 * np.log10(np.square(P_far))`. -/
def I_far_pt (f a SL x : ℝ) : ℝ := 10 * Real.logb 10 ((P_far_pt f a SL x) ^ 2)

/-- `P_far_axis`: the far-field pressure over the range axis. -/
def P_far_axis (f a SL : ℝ) : List ℝ := x_axis.map (P_far_pt f a SL)

/-- `I_far_axis`: the far-field intensity in dB over the range axis. -/
def I_far_axis (f a SL : ℝ) : List ℝ := x_axis.map (I_far_pt f a SL)

/-- Pointwise full-field pressure:
`rho0 * c * U0 * (np.exp(-1j*k*x) - np.exp(-1j*k*np.sqrt(np.square(x)+np.square(a))))`. -/
def P_full_pt (f a SL x : ℝ) : ℂ :=
  (rho0 : ℂ) * (c : ℂ) * (U0 f a SL : ℂ) *
    (Complex.exp (-Complex.I * (k f : ℂ) * (x : ℂ)) -
      Complex.exp (-Complex.I * (k f : ℂ) * ((Real.sqrt (x ^ 2 + a ^ 2) : ℝ) : ℂ)))

/-- Pointwise full-field intensity: `10 * np.log10(np.abs(P_full)**2)`. -/
def I_full_pt (f a SL x : ℝ) : ℝ :=
  10 * Real.logb 10 (Complex.abs (P_full_pt f a SL x) ^ 2)

/-- `I_full_axis`: the full-field intensity in dB over the range axis. -/
def I_full_axis (f a SL : ℝ) : List ℝ := x_axis.map (I_full_pt f a SL)

/-- The calculator `far_and_full_field_intensity_on_axis`: returns
`(x_axis, I_far_axis, I_full_axis)`. -/
def far_and_full_field_intensity_on_axis (f a SL : ℝ) :
    List ℝ × List ℝ × List ℝ :=
  (x_axis, I_far_axis f a SL, I_full_axis f a SL)

/-- The frequency slider `IntSlider(min=1, max=200)`: valid frequencies are
the integers 1..200 (in kHz). -/
def valid_f (f : ℝ) : Prop := ∃ n : ℕ, 1 ≤ n ∧ n ≤ 200 ∧ f = n

/-- The radius slider `FloatSlider(min=0.01, max=1, step=0.01)`: valid radii
are the multiples m/100 for m = 1..100. -/
def valid_a (a : ℝ) : Prop := ∃ m : ℕ, 1 ≤ m ∧ m ≤ 100 ∧ a = m / 100

/-- The source-level slider `IntSlider(min=100, max=220)`. -/
def valid_SL (SL : ℝ) : Prop := ∃ s : ℕ, 100 ≤ s ∧ s ≤ 220 ∧ SL = s

/-- Fueled Newton iteration producing an integer square-root hint.  Only the
bracket check `notSqChk` below relies on it, and that check certifies itself,
so no correctness property of this function is needed. -/
def isqrtHint : ℕ → ℕ → ℕ → ℕ
  | 0, _, x => x
  | fuel + 1, n, x =>
    let y := (x + n / x) / 2
    if y < x then isqrtHint fuel n y else x

/-- Certifies that `v` lies strictly between two consecutive squares. -/
def notSqChk (v : ℕ) : Bool :=
  let r := isqrtHint 40 v ((v / 101500 + 101500) / 2)
  decide (r * r < v) && decide (v < (r + 1) * (r + 1))

/-- The 20000 integers `(199 + 499 i)² + (199 m)²` for `i < 200`,
`1 ≤ m ≤ 100` all pass the strict-bracket check: none of them is a perfect
square.  These are the numerators of `x_i² + a²` over the common denominator
`19900²`, for the samples `x_i` and the valid slider radii `a = m/100`. -/
def chkAllSamples : Bool :=
  (List.range 200).all fun i =>
    (List.range 100).all fun m =>
      notSqChk ((199 + 499 * i) * (199 + 499 * i) +
        (199 * (m + 1)) * (199 * (m + 1)))

/-! ### Basic facts about the embedded quantities -/

lemma c_pos : (0 : ℝ) < c := by norm_num [c]

lemma k_pos {f : ℝ} (hf : 0 < f) : 0 < k f := by
  unfold k omega c
  positivity

lemma k_ne_zero {f : ℝ} (hf : f ≠ 0) : k f ≠ 0 := by
  unfold k omega c
  have := Real.pi_ne_zero
  positivity

lemma SL_lin_pos (SL : ℝ) : 0 < SL_lin SL :=
  Real.rpow_pos_of_pos (by norm_num) _

lemma logb_SL_lin (SL : ℝ) : Real.logb 10 (SL_lin SL) = SL / 20 := by
  unfold SL_lin
  rw [Real.logb_rpow (by norm_num) (by norm_num)]

lemma U0_pos {f a : ℝ} (SL : ℝ) (hf : 0 < f) (ha : 0 < a) : 0 < U0 f a SL := by
  unfold U0 rho0
  have hk := k_pos hf
  have hc := c_pos
  have := SL_lin_pos SL
  positivity

/-- In the far-field pressure the factors `c`, `k`, `a²` cancel against the
denominator of `U0`, leaving exactly the linear source level. -/
lemma far_amp {f a : ℝ} (SL : ℝ) (hf : f ≠ 0) (ha : a ≠ 0) :
    0.5 * c * U0 f a SL * k f * a * a = SL_lin SL := by
  unfold U0 rho0
  have hk := k_ne_zero hf
  have hc := c_pos.ne'
  field_simp
  ring

lemma P_far_pt_eq {f a : ℝ} (SL x : ℝ) (hf : f ≠ 0) (ha : a ≠ 0) :
    P_far_pt f a SL x = SL_lin SL / x := by
  unfold P_far_pt
  rw [far_amp SL hf ha]

lemma I_far_pt_eq {f a x : ℝ} (SL : ℝ) (hf : 0 < f) (ha : 0 < a) (hx : 0 < x) :
    I_far_pt f a SL x = SL - 20 * Real.logb 10 x := by
  unfold I_far_pt
  rw [P_far_pt_eq SL x hf.ne' ha.ne', div_pow,
    Real.logb_div (pow_ne_zero _ (SL_lin_pos SL).ne') (pow_ne_zero _ hx.ne'),
    Real.logb_pow, Real.logb_pow, logb_SL_lin]
  ring

lemma x_pt_pos (i : ℕ) : 0 < x_pt i := by
  unfold x_pt
  have : (0 : ℝ) ≤ (i : ℝ) * ((5 - 0.01) / 199) := by positivity
  linarith

lemma x_pt_strictMono {i j : ℕ} (h : i < j) : x_pt i < x_pt j := by
  unfold x_pt
  have hij : (i : ℝ) < j := Nat.cast_lt.mpr h
  nlinarith

lemma x_pt_le_five {i : ℕ} (h : i < 200) : x_pt i ≤ 5 := by
  unfold x_pt
  have : (i : ℝ) ≤ 199 := by exact_mod_cast Nat.lt_succ_iff.mp h
  nlinarith

lemma x_pt_last : x_pt 199 = 5 := by
  unfold x_pt
  norm_num

@[simp] lemma x_axis_length : x_axis.length = 200 := by
  simp [x_axis]

@[simp] lemma I_far_axis_length (f a SL : ℝ) : (I_far_axis f a SL).length = 200 := by
  simp [I_far_axis]

@[simp] lemma I_full_axis_length (f a SL : ℝ) : (I_full_axis f a SL).length = 200 := by
  simp [I_full_axis]

lemma x_axis_get (i : ℕ) (h : i < x_axis.length) : x_axis.get ⟨i, h⟩ = x_pt i := by
  simp [x_axis]

lemma I_far_axis_get (f a SL : ℝ) (i : ℕ) (h : i < (I_far_axis f a SL).length) :
    (I_far_axis f a SL).get ⟨i, h⟩ = I_far_pt f a SL (x_pt i) := by
  simp [I_far_axis, x_axis]

lemma I_full_axis_get (f a SL : ℝ) (i : ℕ) (h : i < (I_full_axis f a SL).length) :
    (I_full_axis f a SL).get ⟨i, h⟩ = I_full_pt f a SL (x_pt i) := by
  simp [I_full_axis, x_axis]

lemma mem_x_axis {x : ℝ} (hx : x ∈ x_axis) : ∃ i : ℕ, i < 200 ∧ x = x_pt i := by
  unfold x_axis at hx
  obtain ⟨i, hi, rfl⟩ := List.mem_map.mp hx
  exact ⟨i, List.mem_range.mp hi, rfl⟩

lemma mem_x_axis_pos {x : ℝ} (hx : x ∈ x_axis) : 0 < x := by
  obtain ⟨i, _, rfl⟩ := mem_x_axis hx
  exact x_pt_pos i

/-! ### Claim C1 -/

/-- Claim C1: for every valid input the far-field expression evaluated at the
reference range of 1 m reduces exactly to the chosen source level:
`10*log10((0.5*c*U0*k*a^2/1)^2) = SL`.  Proved for every positive frequency
and radius, which covers the slider ranges. -/
theorem C1_far_field_at_one_meter_is_SL (f a SL : ℝ) (hf : 0 < f) (ha : 0 < a) :
    I_far_pt f a SL 1 = SL := by
  rw [I_far_pt_eq SL hf ha one_pos, Real.logb_one]
  ring

/-- Witness for C1 at the notebook's default input f = 12 kHz, a = 0.5 m,
SL = 180 dB. -/
theorem C1_far_field_at_one_meter_is_SL_witness :
    I_far_pt 12 0.5 180 1 = 180 :=
  C1_far_field_at_one_meter_is_SL 12 0.5 180 (by norm_num) (by norm_num)

/-! ### Claim C3 -/

/-- Claim C3: for every input the three sequences returned by the calculator
(range axis, far-field dB, full-field dB) have identical length. -/
theorem C3_equal_lengths (f a SL : ℝ) :
    (far_and_full_field_intensity_on_axis f a SL).1.length =
      (far_and_full_field_intensity_on_axis f a SL).2.1.length ∧
    (far_and_full_field_intensity_on_axis f a SL).2.1.length =
      (far_and_full_field_intensity_on_axis f a SL).2.2.length := by
  simp [far_and_full_field_intensity_on_axis]

/-! ### Claim C6 -/

/-- Claim C6: the range axis is a fixed-length (200) sequence, strictly
increasing sample to sample, every sample lies in (0, 5], and the axis
returned by the calculator is the same list for every input. -/
theorem C6_x_axis_fixed_increasing_bounded :
    x_axis.length = 200 ∧
    (∀ i : ℕ, ∀ h : i + 1 < x_axis.length,
      x_axis.get ⟨i, Nat.lt_of_succ_lt h⟩ < x_axis.get ⟨i + 1, h⟩) ∧
    (∀ x ∈ x_axis, 0 < x ∧ x ≤ 5) ∧
    (∀ f a SL : ℝ, (far_and_full_field_intensity_on_axis f a SL).1 = x_axis) := by
  refine ⟨x_axis_length, ?_, ?_, fun _ _ _ => rfl⟩
  · intro i h
    rw [x_axis_get, x_axis_get]
    exact x_pt_strictMono (Nat.lt_succ_self i)
  · intro x hx
    obtain ⟨i, hi, rfl⟩ := mem_x_axis hx
    exact ⟨x_pt_pos i, x_pt_le_five hi⟩

/-- Witness for C6: the axis has length 200 and its first two samples
increase. -/
theorem C6_x_axis_fixed_increasing_bounded_witness :
    x_axis.length = 200 ∧
    x_axis.get ⟨0, by simp⟩ < x_axis.get ⟨1, by simp⟩ :=
  ⟨C6_x_axis_fixed_increasing_bounded.1,
    C6_x_axis_fixed_increasing_bounded.2.1 0 (by simp)⟩

/-! ### Claim C7 -/

/-- Claim C7: the calculator is a deterministic, side-effect-free function of
its three inputs: two invocations with equal inputs return equal triples of
sequences.  (In the source the function reads only the immutable module
constants `rho0` and `c` and writes no state, which is what lets it be
embedded as a pure function.) -/
theorem C7_deterministic (f a SL f' a' SL' : ℝ)
    (hf : f = f') (ha : a = a') (hSL : SL = SL') :
    far_and_full_field_intensity_on_axis f a SL =
      far_and_full_field_intensity_on_axis f' a' SL' := by
  rw [hf, ha, hSL]

/-- Witness for C7 at the default input. -/
theorem C7_deterministic_witness :
    far_and_full_field_intensity_on_axis 12 0.5 180 =
      far_and_full_field_intensity_on_axis 12 0.5 180 :=
  C7_deterministic 12 0.5 180 12 0.5 180 rfl rfl rfl

/-! ### The magnitude of the full-field pressure -/

/-- Magnitude of a difference of two unit phasors:
`|e^(-iθ₁) - e^(-iθ₂)|² = 2 - 2 cos (θ₂ - θ₁)`. -/
lemma abs_exp_sub_exp (θ₁ θ₂ : ℝ) :
    Complex.abs (Complex.exp (-Complex.I * (θ₁ : ℂ)) -
        Complex.exp (-Complex.I * (θ₂ : ℂ))) ^ 2 =
      2 - 2 * Real.cos (θ₂ - θ₁) := by
  rw [Complex.sq_abs, Complex.normSq_sub]
  have e1 : -Complex.I * (θ₁ : ℂ) = ((-θ₁ : ℝ) : ℂ) * Complex.I := by
    push_cast
    ring
  have e2 : -Complex.I * (θ₂ : ℂ) = ((-θ₂ : ℝ) : ℂ) * Complex.I := by
    push_cast
    ring
  have h1 : Complex.normSq (Complex.exp (-Complex.I * (θ₁ : ℂ))) = 1 := by
    rw [← Complex.sq_abs, e1, Complex.abs_exp_ofReal_mul_I]
    norm_num
  have h2 : Complex.normSq (Complex.exp (-Complex.I * (θ₂ : ℂ))) = 1 := by
    rw [← Complex.sq_abs, e2, Complex.abs_exp_ofReal_mul_I]
    norm_num
  have hconj : (starRingEnd ℂ) (Complex.exp (-Complex.I * (θ₂ : ℂ))) =
      Complex.exp (Complex.I * (θ₂ : ℂ)) := by
    rw [← Complex.exp_conj]
    congr 1
    simp [map_mul, Complex.conj_I]
  have hprod : Complex.exp (-Complex.I * (θ₁ : ℂ)) * Complex.exp (Complex.I * (θ₂ : ℂ)) =
      Complex.exp (((θ₂ - θ₁ : ℝ) : ℂ) * Complex.I) := by
    rw [← Complex.exp_add]
    congr 1
    push_cast
    ring
  rw [h1, h2, hconj, hprod, Complex.exp_ofReal_mul_I_re]
  ring

/-- The squared magnitude of the full-field pressure factors as the squared
amplitude `(ρ₀ c U0)²` times the interference factor `4 sin²(k Δ / 2)`,
where `Δ = √(x² + a²) - x` is the path difference. -/
lemma abs_P_full_sq (f a SL x : ℝ) :
    Complex.abs (P_full_pt f a SL x) ^ 2 =
      (rho0 * c * U0 f a SL) ^ 2 *
        (4 * Real.sin (k f * (Real.sqrt (x ^ 2 + a ^ 2) - x) / 2) ^ 2) := by
  unfold P_full_pt
  rw [show (rho0 : ℂ) * (c : ℂ) * (U0 f a SL : ℂ) =
      ((rho0 * c * U0 f a SL : ℝ) : ℂ) by push_cast; ring]
  rw [map_mul Complex.abs, mul_pow, Complex.abs_ofReal, sq_abs]
  rw [show -Complex.I * (k f : ℂ) * (x : ℂ) =
      -Complex.I * ((k f * x : ℝ) : ℂ) by push_cast; ring]
  rw [show -Complex.I * (k f : ℂ) * ((Real.sqrt (x ^ 2 + a ^ 2) : ℝ) : ℂ) =
      -Complex.I * ((k f * Real.sqrt (x ^ 2 + a ^ 2) : ℝ) : ℂ) by push_cast; ring]
  rw [abs_exp_sub_exp]
  have harg : k f * Real.sqrt (x ^ 2 + a ^ 2) - k f * x =
      2 * (k f * (Real.sqrt (x ^ 2 + a ^ 2) - x) / 2) := by ring
  rw [harg, Real.cos_two_mul, Real.cos_sq']
  ring

/-! ### Claim C4 -/

/-- Claim C4: for every valid input the far-field intensity sequence strictly
decreases with range: at consecutive samples `x_i < x_{i+1}` it satisfies
`I_far(x_i) > I_far(x_{i+1})`. -/
theorem C4_far_field_strictly_decreasing (f a SL : ℝ) (hf : 0 < f) (ha : 0 < a)
    (i : ℕ) (h : i + 1 < (I_far_axis f a SL).length) :
    (I_far_axis f a SL).get ⟨i + 1, h⟩ <
      (I_far_axis f a SL).get ⟨i, Nat.lt_of_succ_lt h⟩ := by
  rw [I_far_axis_get, I_far_axis_get,
    I_far_pt_eq SL hf ha (x_pt_pos i), I_far_pt_eq SL hf ha (x_pt_pos (i + 1))]
  have hlt := Real.logb_lt_logb (b := 10) (by norm_num) (x_pt_pos i)
    (x_pt_strictMono (Nat.lt_succ_self i))
  linarith

/-- Witness for C4 at the default input and its first pair of samples. -/
theorem C4_far_field_strictly_decreasing_witness :
    (I_far_axis 12 0.5 180).get ⟨1, by simp⟩ < (I_far_axis 12 0.5 180).get ⟨0, by simp⟩ :=
  C4_far_field_strictly_decreasing 12 0.5 180 (by norm_num) (by norm_num) 0 (by simp)

/-! ### Claim C8 -/

/-- Claim C8: the far-field approximation decays inversely with range: for any
two range samples `x, x'` the pressure satisfies
`P_far(x) * x = P_far(x') * x'`, and equivalently the intensity falls as
`1/r²`: `I_far(x) - I_far(x') = 20*log10(x'/x)`. -/
theorem C8_inverse_range_decay (f a SL : ℝ) (hf : 0 < f) (ha : 0 < a) :
    ∀ x ∈ x_axis, ∀ x' ∈ x_axis,
      P_far_pt f a SL x * x = P_far_pt f a SL x' * x' ∧
      I_far_pt f a SL x - I_far_pt f a SL x' = 20 * Real.logb 10 (x' / x) := by
  intro x hx x' hx'
  have hxpos := mem_x_axis_pos hx
  have hx'pos := mem_x_axis_pos hx'
  constructor
  · rw [P_far_pt_eq SL x hf.ne' ha.ne', P_far_pt_eq SL x' hf.ne' ha.ne',
      div_mul_cancel₀ _ hxpos.ne', div_mul_cancel₀ _ hx'pos.ne']
  · rw [I_far_pt_eq SL hf ha hxpos, I_far_pt_eq SL hf ha hx'pos,
      Real.logb_div hx'pos.ne' hxpos.ne']
    ring

/-- Witness for C8 at the default input and the first two samples. -/
theorem C8_inverse_range_decay_witness :
    P_far_pt 12 0.5 180 (x_pt 0) * x_pt 0 = P_far_pt 12 0.5 180 (x_pt 1) * x_pt 1 ∧
    I_far_pt 12 0.5 180 (x_pt 0) - I_far_pt 12 0.5 180 (x_pt 1) =
      20 * Real.logb 10 (x_pt 1 / x_pt 0) :=
  C8_inverse_range_decay 12 0.5 180 (by norm_num) (by norm_num)
    (x_pt 0) (by simp [x_axis]; exact ⟨0, by norm_num, rfl⟩)
    (x_pt 1) (by simp [x_axis]; exact ⟨1, by norm_num, rfl⟩)

/-! ### Claim C9 -/

/-- Claim C9 (implicit): for every valid input the far-field intensity at
every positive range equals `SL - 20*log10(x)` exactly — the factors `c`,
`k`, `a²` cancel against `U0` — and the far-field intensity sequence is
therefore independent of the frequency and the radius. -/
theorem C9_far_field_is_SL_minus_spreading (f a f' a' SL : ℝ)
    (hf : 0 < f) (ha : 0 < a) (hf' : 0 < f') (ha' : 0 < a') :
    (∀ x : ℝ, 0 < x → I_far_pt f a SL x = SL - 20 * Real.logb 10 x) ∧
    I_far_axis f a SL = I_far_axis f' a' SL := by
  constructor
  · intro x hx
    exact I_far_pt_eq SL hf ha hx
  · unfold I_far_axis
    apply List.map_congr_left
    intro x hx
    have hxpos := mem_x_axis_pos hx
    rw [I_far_pt_eq SL hf ha hxpos, I_far_pt_eq SL hf' ha' hxpos]

/-- Witness for C9: at the default input, the far-field intensity at 1 m and
the equality of the whole far-field sequence with the one for f = 1 kHz,
a = 0.01 m. -/
theorem C9_far_field_is_SL_minus_spreading_witness :
    I_far_pt 12 0.5 180 1 = 180 - 20 * Real.logb 10 1 ∧
    I_far_axis 12 0.5 180 = I_far_axis 1 0.01 180 :=
  ⟨(C9_far_field_is_SL_minus_spreading 12 0.5 1 0.01 180
      (by norm_num) (by norm_num) (by norm_num) (by norm_num)).1 1 one_pos,
    (C9_far_field_is_SL_minus_spreading 12 0.5 1 0.01 180
      (by norm_num) (by norm_num) (by norm_num) (by norm_num)).2⟩

/-! ### Claim C2 -/

/-- Counterexample for C2: at the non-positive frequency f = -1 kHz the
calculator does not reject the input.  The denominator of `U0` is non-zero
there (so the division — the only fallible operation in the function — is
genuinely defined, and the Python code raises no error of any kind), and the
calculator simply computes the full 200-sample intensity sequences instead of
signalling an input-range validation error. -/
theorem C2_counterexample :
    rho0 * c * k (-1) * 0.5 * 0.5 / 2 ≠ 0 ∧
    (far_and_full_field_intensity_on_axis (-1) 0.5 180).2.1.length = 200 ∧
    (far_and_full_field_intensity_on_axis (-1) 0.5 180).2.2.length = 200 := by
  refine ⟨?_, by simp [far_and_full_field_intensity_on_axis],
    by simp [far_and_full_field_intensity_on_axis]⟩
  unfold rho0 k omega c
  intro h
  nlinarith [Real.pi_pos]

/-- Claim C2 amended: the calculator performs no input-range validation and
never signals a validation error.  For strictly positive frequency and radius
the `U0` denominator is non-zero, so the one fallible operation (that
division) is defined and no error is raised; exactly at f = 0 or a = 0 the
denominator is zero (in the source an unguarded Python `ZeroDivisionError`,
not a validation error); and the slider bounds guarantee strict positivity,
keeping every reachable input away from the zero-denominator case. -/
theorem C2_no_validation_positive_domain (f a : ℝ) :
    (0 < f → 0 < a → rho0 * c * k f * a * a / 2 ≠ 0) ∧
    (f = 0 ∨ a = 0 → rho0 * c * k f * a * a / 2 = 0) ∧
    (valid_f f → valid_a a → 0 < f ∧ 0 < a) := by
  refine ⟨?_, ?_, ?_⟩
  · intro hfpos hapos
    have hk := k_pos hfpos
    have hc := c_pos
    unfold rho0
    positivity
  · rintro (rfl | rfl)
    · have hk : k 0 = 0 := by
        unfold k omega
        ring
      rw [hk]
      ring
    · ring
  · rintro ⟨n, hn1, _, rfl⟩ ⟨m, hm1, _, rfl⟩
    have hfpos : (0 : ℝ) < n := by
      exact_mod_cast Nat.lt_of_lt_of_le Nat.zero_lt_one hn1
    have hmpos : (0 : ℝ) < m := by
      exact_mod_cast Nat.lt_of_lt_of_le Nat.zero_lt_one hm1
    exact ⟨hfpos, by positivity⟩

/-- Witness for C2 (amended): the default slider values give a non-zero
denominator, f = 0 gives a zero denominator, and slider validity yields
positivity. -/
theorem C2_no_validation_positive_domain_witness :
    rho0 * c * k 12 * 0.5 * 0.5 / 2 ≠ 0 ∧
    rho0 * c * k 0 * 0.5 * 0.5 / 2 = 0 ∧
    (0 < (12 : ℝ) ∧ 0 < (0.5 : ℝ)) :=
  ⟨(C2_no_validation_positive_domain 12 0.5).1 (by norm_num) (by norm_num),
    (C2_no_validation_positive_domain 0 0.5).2.1 (Or.inl rfl),
    (C2_no_validation_positive_domain 12 0.5).2.2
      ⟨12, by norm_num⟩ ⟨50, by norm_num⟩⟩

/-! ### Non-vanishing of the interference factor at the samples

For valid slider inputs (f an integer number of kHz, a an integer multiple of
0.01 m) and any sample `x_i = (199 + 499 i)/19900`, the phase difference
`k (√(x_i² + a²) - x_i) / 2` is never an integer multiple of π, because
`√(x_i² + a²)` is irrational: `(199 + 499 i)² + (199 m)²` is never a perfect
square.  This is what makes the full-field intensity a genuine (finite)
number at every sample. -/

lemma not_isSquare_of_notSqChk (v : ℕ) (h : notSqChk v = true) : ¬ IsSquare v := by
  unfold notSqChk at h
  set r := isqrtHint 40 v ((v / 101500 + 101500) / 2) with hr
  simp only [Bool.and_eq_true, decide_eq_true_eq] at h
  obtain ⟨h1, h2⟩ := h
  rintro ⟨w, rfl⟩
  rcases le_or_lt w r with hw | hw
  · have := Nat.mul_le_mul hw hw
    omega
  · have hw' : r + 1 ≤ w := hw
    have := Nat.mul_le_mul hw' hw'
    omega

set_option maxHeartbeats 8000000 in
set_option maxRecDepth 100000 in
lemma chkAllSamples_true : chkAllSamples = true := by decide

lemma sample_sum_sq_not_square {i m : ℕ} (hi : i < 200) (hm1 : 1 ≤ m)
    (hm2 : m ≤ 100) :
    ¬ IsSquare ((199 + 499 * i) * (199 + 499 * i) + (199 * m) * (199 * m)) := by
  have h := chkAllSamples_true
  unfold chkAllSamples at h
  rw [List.all_eq_true] at h
  have h2 := h i (List.mem_range.mpr hi)
  rw [List.all_eq_true] at h2
  have h3 := h2 (m - 1) (List.mem_range.mpr (by omega))
  have hm : m - 1 + 1 = m := by omega
  rw [hm] at h3
  exact not_isSquare_of_notSqChk _ h3

lemma x_pt_ratio (i : ℕ) : x_pt i = ((199 : ℝ) + 499 * i) / 19900 := by
  unfold x_pt
  norm_num
  ring

lemma sqrt_sample_irrational {i m : ℕ} (hi : i < 200) (hm1 : 1 ≤ m)
    (hm2 : m ≤ 100) :
    Irrational (Real.sqrt ((x_pt i) ^ 2 + ((m : ℝ) / 100) ^ 2)) := by
  have hN : (x_pt i) ^ 2 + ((m : ℝ) / 100) ^ 2 =
      (((199 + 499 * i) * (199 + 499 * i) + (199 * m) * (199 * m) : ℕ) : ℝ) /
        (19900 : ℝ) ^ 2 := by
    rw [x_pt_ratio]
    push_cast
    field_simp
    ring
  rw [hN, Real.sqrt_div (by positivity) _, Real.sqrt_sq (by norm_num : (0:ℝ) ≤ 19900)]
  have base : Irrational
      (Real.sqrt (((199 + 499 * i) * (199 + 499 * i) + (199 * m) * (199 * m) : ℕ) : ℝ)) :=
    irrational_sqrt_natCast_iff.mpr (sample_sum_sq_not_square hi hm1 hm2)
  simpa using base.div_nat (m := 19900) (by norm_num)

/-- For valid slider inputs the interference factor `sin(k Δ / 2)` never
vanishes at a sample of the range axis. -/
lemma sin_half_ne_zero {f a : ℝ} (hf : valid_f f) (ha : valid_a a)
    {i : ℕ} (hi : i < 200) :
    Real.sin (k f * (Real.sqrt ((x_pt i) ^ 2 + a ^ 2) - x_pt i) / 2) ≠ 0 := by
  obtain ⟨n, hn1, hn2, rfl⟩ := hf
  obtain ⟨m, hm1, hm2, rfl⟩ := ha
  intro h0
  rw [Real.sin_eq_zero_iff] at h0
  obtain ⟨z, hz⟩ := h0
  have hπ := Real.pi_ne_zero
  have hnR : ((n : ℝ)) ≠ 0 := by
    have : (0 : ℝ) < n := by exact_mod_cast Nat.lt_of_lt_of_le Nat.zero_lt_one hn1
    exact this.ne'
  set S := Real.sqrt ((x_pt i) ^ 2 + ((m : ℝ) / 100) ^ 2) with hS
  have h3 : Real.pi * ((z : ℝ) * 3) = Real.pi * (2 * (n : ℝ) * (S - x_pt i)) := by
    unfold k omega c at hz
    linear_combination (3 : ℝ) * hz
  have h4 : (z : ℝ) * 3 = 2 * (n : ℝ) * (S - x_pt i) := mul_left_cancel₀ hπ h3
  have h5 : S = ((((199 + 499 * (i : ℚ)) / 19900 + 3 * (z : ℚ) / (2 * (n : ℚ))) : ℚ) : ℝ) := by
    have hx := x_pt_ratio i
    push_cast
    rw [← hx]
    have h2n : (2 : ℝ) * (n : ℝ) ≠ 0 := by
      simpa using hnR
    field_simp
    linarith
  exact absurd ⟨_, h5.symm⟩ (sqrt_sample_irrational hi hm1 hm2)

/-! ### Claim C10 -/

/-- Claim C10 (implicit): changing only the source level shifts both intensity
curves uniformly by `SL - SL'` at every sample, and leaves the range axis
unchanged.  Valid slider inputs are needed for the full-field part: they
guarantee the interference factor is non-zero at every sample, so the
logarithm splits. -/
theorem C10_source_level_shifts_curves (f a : ℝ) (hf : valid_f f)
    (ha : valid_a a) (SL SL' : ℝ) :
    (far_and_full_field_intensity_on_axis f a SL).1 =
      (far_and_full_field_intensity_on_axis f a SL').1 ∧
    ∀ i : ℕ, i < 200 →
      I_far_pt f a SL (x_pt i) = I_far_pt f a SL' (x_pt i) + (SL - SL') ∧
      I_full_pt f a SL (x_pt i) = I_full_pt f a SL' (x_pt i) + (SL - SL') := by
  have hfpos : 0 < f := by
    obtain ⟨n, hn1, _, rfl⟩ := hf
    exact_mod_cast Nat.lt_of_lt_of_le Nat.zero_lt_one hn1
  have hapos : 0 < a := by
    obtain ⟨m, hm1, _, rfl⟩ := ha
    have : (0 : ℝ) < m := by exact_mod_cast Nat.lt_of_lt_of_le Nat.zero_lt_one hm1
    positivity
  refine ⟨rfl, fun i hi => ⟨?_, ?_⟩⟩
  · rw [I_far_pt_eq SL hfpos hapos (x_pt_pos i),
      I_far_pt_eq SL' hfpos hapos (x_pt_pos i)]
    ring
  · have hsin := sin_half_ne_zero hf ha hi
    unfold I_full_pt
    rw [abs_P_full_sq, abs_P_full_sq]
    have hR : rho0 * c * U0 f a SL ≠ 0 := by
      have h1 := U0_pos SL hfpos hapos
      have h2 := c_pos
      unfold rho0
      positivity
    have hR' : rho0 * c * U0 f a SL' ≠ 0 := by
      have h1 := U0_pos SL' hfpos hapos
      have h2 := c_pos
      unfold rho0
      positivity
    have hE : (4 : ℝ) *
        Real.sin (k f * (Real.sqrt ((x_pt i) ^ 2 + a ^ 2) - x_pt i) / 2) ^ 2 ≠ 0 :=
      mul_ne_zero (by norm_num) (pow_ne_zero 2 hsin)
    rw [Real.logb_mul (pow_ne_zero 2 hR) hE, Real.logb_mul (pow_ne_zero 2 hR') hE,
      Real.logb_pow, Real.logb_pow]
    have hRR : Real.logb 10 (rho0 * c * U0 f a SL) -
        Real.logb 10 (rho0 * c * U0 f a SL') = (SL - SL') / 20 := by
      rw [← Real.logb_div hR hR']
      have hdiv : rho0 * c * U0 f a SL / (rho0 * c * U0 f a SL') =
          SL_lin SL / SL_lin SL' := by
        unfold U0 rho0
        have hk := k_ne_zero hfpos.ne'
        have hc := c_pos.ne'
        have hs' := (SL_lin_pos SL').ne'
        field_simp
        ring
      rw [hdiv]
      unfold SL_lin
      rw [← Real.rpow_sub (by norm_num : (0 : ℝ) < 10),
        show SL / 20 - SL' / 20 = (SL - SL') / 20 by ring,
        Real.logb_rpow (by norm_num) (by norm_num)]
    linarith

/-- Witness for C10: default input f = 12 kHz, a = 0.5 m, with source levels
180 and 150 dB, at the first sample. -/
theorem C10_source_level_shifts_curves_witness :
    (far_and_full_field_intensity_on_axis 12 (1 / 2) 180).1 =
      (far_and_full_field_intensity_on_axis 12 (1 / 2) 150).1 ∧
    I_far_pt 12 (1 / 2) 180 (x_pt 0) = I_far_pt 12 (1 / 2) 150 (x_pt 0) + (180 - 150) ∧
    I_full_pt 12 (1 / 2) 180 (x_pt 0) = I_full_pt 12 (1 / 2) 150 (x_pt 0) + (180 - 150) := by
  have h := C10_source_level_shifts_curves 12 (1 / 2)
    ⟨12, by norm_num⟩ ⟨50, by norm_num⟩ 180 150
  exact ⟨h.1, (h.2 0 (by norm_num)).1, (h.2 0 (by norm_num)).2⟩

/-! ### Claim C5: convergence of full field to far field -/

lemma ten_rpow_neg_twentieth_lt : (10 : ℝ) ^ (-(1 / 20) : ℝ) < 12 / 13 := by
  have hpow : ((10 : ℝ) ^ (-(1 / 20) : ℝ)) ^ (20 : ℕ) = 1 / 10 := by
    rw [← Real.rpow_natCast ((10 : ℝ) ^ (-(1 / 20) : ℝ)) 20,
      ← Real.rpow_mul (by norm_num : (0 : ℝ) ≤ 10),
      show (-(1 / 20) * ((20 : ℕ) : ℝ)) = ((-1 : ℤ) : ℝ) by push_cast; ring,
      Real.rpow_intCast]
    norm_num
  by_contra hcon
  push_neg at hcon
  have hle := pow_le_pow_left (by norm_num : (0 : ℝ) ≤ 12 / 13) hcon 20
  rw [hpow] at hle
  norm_num at hle

set_option maxHeartbeats 1600000 in
/-- Claim C5 amended: at any range `x` in the genuine far field — beyond
`2·(2a)` and beyond the Rayleigh distance `π a² / λ = π a² (1000 f) / c` —
the full-field and far-field intensities agree within 1 dB. -/
theorem C5_far_field_convergence (f a SL x : ℝ) (hf : 0 < f) (ha : 0 < a)
    (hx4 : 4 * a ≤ x) (hray : Real.pi * a ^ 2 * (1000 * f) / c ≤ x) :
    |I_full_pt f a SL x - I_far_pt f a SL x| < 1 := by
  have hxpos : 0 < x := lt_of_lt_of_le (by positivity) hx4
  have hK : 0 < k f := k_pos hf
  have hKa2pos : 0 < k f * a ^ 2 := by positivity
  -- facts about s = √(x² + a²)
  have hs_nonneg : (0 : ℝ) ≤ x ^ 2 + a ^ 2 := by positivity
  have hs2 : Real.sqrt (x ^ 2 + a ^ 2) ^ 2 = x ^ 2 + a ^ 2 := Real.sq_sqrt hs_nonneg
  have hs_gt : x < Real.sqrt (x ^ 2 + a ^ 2) := by
    rw [Real.lt_sqrt hxpos.le]
    nlinarith
  have hs_le : Real.sqrt (x ^ 2 + a ^ 2) ≤ x + a ^ 2 / (2 * x) := by
    have hrhs : (0 : ℝ) ≤ x + a ^ 2 / (2 * x) := by positivity
    have hbound : x ^ 2 + a ^ 2 ≤ (x + a ^ 2 / (2 * x)) ^ 2 := by
      have h2xt : 2 * x * (a ^ 2 / (2 * x)) = a ^ 2 := by
        field_simp
      nlinarith [sq_nonneg (a ^ 2 / (2 * x))]
    calc Real.sqrt (x ^ 2 + a ^ 2) ≤ Real.sqrt ((x + a ^ 2 / (2 * x)) ^ 2) :=
          Real.sqrt_le_sqrt hbound
      _ = x + a ^ 2 / (2 * x) := Real.sqrt_sq hrhs
  have ha2 : a ^ 2 ≤ x ^ 2 / 16 := by
    nlinarith [mul_nonneg (sub_nonneg.mpr hx4) (by positivity : (0 : ℝ) ≤ x + 4 * a)]
  have h2xs : 2 * x * (Real.sqrt (x ^ 2 + a ^ 2) - x) ≤ a ^ 2 := by
    have h2xt : 2 * x * (a ^ 2 / (2 * x)) = a ^ 2 := by field_simp
    nlinarith [hs_le]
  have hsxprod : (Real.sqrt (x ^ 2 + a ^ 2) - x) * (Real.sqrt (x ^ 2 + a ^ 2) + x) = a ^ 2 := by
    linear_combination hs2
  have hKa2x : k f * a ^ 2 ≤ 2 * x := by
    have hkval : k f * a ^ 2 = 2 * (Real.pi * a ^ 2 * (1000 * f) / c) := by
      unfold k omega c
      field_simp
      ring
    rw [hkval]
    linarith
  -- the phase θ = k (s - x) / 2
  have hθpos : 0 < k f * (Real.sqrt (x ^ 2 + a ^ 2) - x) / 2 := by
    have := sub_pos.mpr hs_gt
    positivity
  have hθle : k f * (Real.sqrt (x ^ 2 + a ^ 2) - x) / 2 ≤ 1 / 2 := by
    have hstep : k f * (2 * x * (Real.sqrt (x ^ 2 + a ^ 2) - x)) ≤ k f * a ^ 2 :=
      mul_le_mul_of_nonneg_left h2xs hK.le
    nlinarith [hKa2x, hK, hxpos, sub_pos.mpr hs_gt]
  have hsinpos : 0 < Real.sin (k f * (Real.sqrt (x ^ 2 + a ^ 2) - x) / 2) :=
    Real.sin_pos_of_pos_of_lt_pi hθpos
      (lt_of_le_of_lt hθle (by linarith [Real.pi_gt_three]))
  have hsinlt : Real.sin (k f * (Real.sqrt (x ^ 2 + a ^ 2) - x) / 2) <
      k f * (Real.sqrt (x ^ 2 + a ^ 2) - x) / 2 := Real.sin_lt hθpos
  have hθsq : (k f * (Real.sqrt (x ^ 2 + a ^ 2) - x) / 2) ^ 2 ≤ 1 / 4 := by
    nlinarith [hθpos, hθle]
  have hsingt : (15 / 16) * (k f * (Real.sqrt (x ^ 2 + a ^ 2) - x) / 2) <
      Real.sin (k f * (Real.sqrt (x ^ 2 + a ^ 2) - x) / 2) := by
    have hcube := Real.sin_gt_sub_cube hθpos (le_trans hθle (by norm_num))
    nlinarith [hcube, hθpos, hθsq,
      mul_le_mul_of_nonneg_left hθsq hθpos.le]
  -- upper bound: 4 x sin θ < k a²
  have hup : 4 * x * Real.sin (k f * (Real.sqrt (x ^ 2 + a ^ 2) - x) / 2) < k f * a ^ 2 := by
    have h1 : 4 * x * Real.sin (k f * (Real.sqrt (x ^ 2 + a ^ 2) - x) / 2) <
        4 * x * (k f * (Real.sqrt (x ^ 2 + a ^ 2) - x) / 2) :=
      mul_lt_mul_of_pos_left hsinlt (by positivity)
    have h2 : k f * (Real.sqrt (x ^ 2 + a ^ 2) - x) * (2 * x) <
        k f * (Real.sqrt (x ^ 2 + a ^ 2) - x) *
          (Real.sqrt (x ^ 2 + a ^ 2) + x) := by
      apply mul_lt_mul_of_pos_left _ (mul_pos hK (sub_pos.mpr hs_gt))
      linarith [hs_gt]
    have h3 : k f * (Real.sqrt (x ^ 2 + a ^ 2) - x) *
        (Real.sqrt (x ^ 2 + a ^ 2) + x) = k f * a ^ 2 := by
      rw [mul_assoc, hsxprod]
    linarith [h1, h2, h3.symm.le, h3.le,
      show 4 * x * (k f * (Real.sqrt (x ^ 2 + a ^ 2) - x) / 2) =
        k f * (Real.sqrt (x ^ 2 + a ^ 2) - x) * (2 * x) by ring]
  -- lower bound: (12/13) k a² < 4 x sin θ
  have hs_le32 : Real.sqrt (x ^ 2 + a ^ 2) ≤ (33 / 32) * x := by
    nlinarith [h2xs, ha2, hxpos]
  have hlo : (12 / 13) * (k f * a ^ 2) <
      4 * x * Real.sin (k f * (Real.sqrt (x ^ 2 + a ^ 2) - x) / 2) := by
    have h1 : 4 * x * ((15 / 16) * (k f * (Real.sqrt (x ^ 2 + a ^ 2) - x) / 2)) <
        4 * x * Real.sin (k f * (Real.sqrt (x ^ 2 + a ^ 2) - x) / 2) :=
      mul_lt_mul_of_pos_left hsingt (by positivity)
    have h2 : k f * (Real.sqrt (x ^ 2 + a ^ 2) - x) *
        (Real.sqrt (x ^ 2 + a ^ 2) + x) ≤
        k f * (Real.sqrt (x ^ 2 + a ^ 2) - x) * ((65 / 32) * x) := by
      apply mul_le_mul_of_nonneg_left _
        (mul_nonneg hK.le (sub_pos.mpr hs_gt).le)
      linarith [hs_le32]
    have h3 : k f * (Real.sqrt (x ^ 2 + a ^ 2) - x) *
        (Real.sqrt (x ^ 2 + a ^ 2) + x) = k f * a ^ 2 := by
      rw [mul_assoc, hsxprod]
    linarith [h1, h2, h3.le, h3.symm.le,
      show 4 * x * ((15 / 16) * (k f * (Real.sqrt (x ^ 2 + a ^ 2) - x) / 2)) =
        (12 / 13) * (k f * (Real.sqrt (x ^ 2 + a ^ 2) - x) * ((65 / 32) * x)) by ring]
  -- the ratio ρ = 4 x sin θ / (k a²) and the dB difference
  have hρpos : 0 < 4 * x * Real.sin (k f * (Real.sqrt (x ^ 2 + a ^ 2) - x) / 2) /
      (k f * a ^ 2) := by positivity
  have hρub : 4 * x * Real.sin (k f * (Real.sqrt (x ^ 2 + a ^ 2) - x) / 2) /
      (k f * a ^ 2) < 1 := (div_lt_one hKa2pos).mpr hup
  have hρlb : (12 : ℝ) / 13 < 4 * x * Real.sin (k f * (Real.sqrt (x ^ 2 + a ^ 2) - x) / 2) /
      (k f * a ^ 2) := (lt_div_iff hKa2pos).mpr hlo
  have hRsq : (rho0 * c * U0 f a SL) ^ 2 *
      (4 * Real.sin (k f * (Real.sqrt (x ^ 2 + a ^ 2) - x) / 2) ^ 2) =
      (SL_lin SL / x) ^ 2 *
        (4 * x * Real.sin (k f * (Real.sqrt (x ^ 2 + a ^ 2) - x) / 2) /
          (k f * a ^ 2)) ^ 2 := by
    unfold U0 rho0
    have hkne := hK.ne'
    have hcne := c_pos.ne'
    have hane := ha.ne'
    have hxne := hxpos.ne'
    field_simp
    ring
  have hfull : I_full_pt f a SL x = I_far_pt f a SL x +
      20 * Real.logb 10 (4 * x * Real.sin (k f * (Real.sqrt (x ^ 2 + a ^ 2) - x) / 2) /
        (k f * a ^ 2)) := by
    unfold I_full_pt I_far_pt
    rw [abs_P_full_sq, hRsq, P_far_pt_eq SL x hf.ne' ha.ne']
    have h1 : ((SL_lin SL / x) ^ 2 : ℝ) ≠ 0 :=
      pow_ne_zero _ (div_ne_zero (SL_lin_pos SL).ne' hxpos.ne')
    have h2 : (4 * x * Real.sin (k f * (Real.sqrt (x ^ 2 + a ^ 2) - x) / 2) /
        (k f * a ^ 2)) ^ 2 ≠ 0 := pow_ne_zero _ hρpos.ne'
    rw [Real.logb_mul h1 h2, Real.logb_pow, Real.logb_pow]
    ring
  have hlogb_neg : Real.logb 10 (4 * x * Real.sin (k f * (Real.sqrt (x ^ 2 + a ^ 2) - x) / 2) /
      (k f * a ^ 2)) < 0 := Real.logb_neg (by norm_num) hρpos hρub
  have hlogb_gt : -(1 / 20) < Real.logb 10
      (4 * x * Real.sin (k f * (Real.sqrt (x ^ 2 + a ^ 2) - x) / 2) / (k f * a ^ 2)) :=
    (Real.lt_logb_iff_rpow_lt (by norm_num) hρpos).mpr
      (lt_trans ten_rpow_neg_twentieth_lt hρlb)
  rw [hfull, add_sub_cancel_left, abs_lt]
  constructor
  · linarith
  · linarith

/-- Witness for C5 (amended) at f = 1 kHz, a = 0.01 m, SL = 180 dB,
x = x_pt 2 ≈ 0.06 m, which is beyond both 4·a = 0.04 m and the Rayleigh
distance π a² (1000 f)/c ≈ 0.0002 m. -/
theorem C5_far_field_convergence_witness :
    |I_full_pt 1 0.01 180 (x_pt 2) - I_far_pt 1 0.01 180 (x_pt 2)| < 1 := by
  apply C5_far_field_convergence 1 0.01 180 (x_pt 2) (by norm_num) (by norm_num)
  · unfold x_pt
    norm_num
  · have hπ := Real.pi_lt_d2
    unfold x_pt c
    push_cast
    nlinarith

/-- Monotonicity of `log10` extended to a zero left endpoint (Lean's
`logb 10 0 = 0`, and `logb` of a number `≥ 1` is non-negative). -/
lemma logb_le_of_le {z w : ℝ} (hz : 0 ≤ z) (hzw : z ≤ w) (hw : 1 ≤ w) :
    Real.logb 10 z ≤ Real.logb 10 w := by
  rcases eq_or_lt_of_le hz with h0 | h0
  · rw [← h0, Real.logb_zero]
    exact Real.logb_nonneg (by norm_num) hw
  · exact Real.logb_le_logb_of_le (by norm_num) h0 hzw

lemma logb_five_lt : Real.logb 10 5 < 7 / 10 := by
  rw [Real.logb_lt_iff_lt_rpow (by norm_num) (by norm_num : (0 : ℝ) < 5)]
  by_contra hcon
  push_neg at hcon
  have hle := pow_le_pow_left (by positivity) hcon 10
  rw [← Real.rpow_natCast ((10 : ℝ) ^ ((7 : ℝ) / 10)) 10,
    ← Real.rpow_mul (by norm_num : (0 : ℝ) ≤ 10),
    show ((7 : ℝ) / 10 * ((10 : ℕ) : ℝ)) = ((7 : ℕ) : ℝ) by push_cast; ring,
    Real.rpow_natCast] at hle
  norm_num at hle

/-- Counterexample for C5 as stated: its "in particular" part fails.  At the
valid input f = 200 kHz, a = 1 m, SL = 180 dB the last range sample (5 m)
lies far below the Rayleigh distance π a² (1000 f)/c ≈ 419 m, and the last
samples of the two intensity sequences differ by more than 1 dB (indeed by
more than 26 dB). -/
theorem C5_counterexample :
    x_pt 199 = 5 ∧
    (I_far_axis 200 1 180).get ⟨199, by simp⟩ = I_far_pt 200 1 180 5 ∧
    (I_full_axis 200 1 180).get ⟨199, by simp⟩ = I_full_pt 200 1 180 5 ∧
    1 < |I_full_pt 200 1 180 5 - I_far_pt 200 1 180 5| := by
  refine ⟨x_pt_last, ?_, ?_, ?_⟩
  · rw [I_far_axis_get, x_pt_last]
  · rw [I_full_axis_get, x_pt_last]
  have hIfar : I_far_pt 200 1 180 5 = 180 - 20 * Real.logb 10 5 :=
    I_far_pt_eq 180 (by norm_num) (by norm_num) (by norm_num)
  have hfar_lb : 166 < I_far_pt 200 1 180 5 := by
    rw [hIfar]
    linarith [logb_five_lt]
  have hK_pos : 0 < k 200 := k_pos (by norm_num)
  have hK_lb : (400 : ℝ) ≤ k 200 := by
    unfold k omega c
    nlinarith [Real.pi_gt_three]
  have hU0 : rho0 * c * U0 200 1 180 = 2 * SL_lin 180 / k 200 := by
    unfold U0 rho0
    have hc := c_pos.ne'
    have hk := hK_pos.ne'
    field_simp
    ring
  have hSLl : SL_lin 180 = (10 : ℝ) ^ (9 : ℕ) := by
    unfold SL_lin
    rw [show (180 : ℝ) / 20 = ((9 : ℕ) : ℝ) by norm_num, Real.rpow_natCast]
  have hR_pos : 0 < rho0 * c * U0 200 1 180 := by
    have h1 := U0_pos 180 (by norm_num : (0 : ℝ) < 200) (by norm_num : (0 : ℝ) < 1)
    have h2 := c_pos
    unfold rho0
    positivity
  have hR_ub : rho0 * c * U0 200 1 180 ≤ 5000000 := by
    rw [hU0, hSLl, div_le_iff hK_pos]
    nlinarith [hK_lb]
  have hE_ub : Complex.abs (P_full_pt 200 1 180 5) ^ 2 ≤ (10 : ℝ) ^ (14 : ℕ) := by
    rw [abs_P_full_sq]
    have hsq : (rho0 * c * U0 200 1 180) ^ 2 ≤ (5000000 : ℝ) ^ 2 :=
      pow_le_pow_left hR_pos.le hR_ub 2
    have hsin := Real.sin_sq_le_one
      (k 200 * (Real.sqrt ((5 : ℝ) ^ 2 + 1 ^ 2) - 5) / 2)
    nlinarith [sq_nonneg (rho0 * c * U0 200 1 180)]
  have hIfull_ub : I_full_pt 200 1 180 5 ≤ 140 := by
    unfold I_full_pt
    have hlogb := logb_le_of_le (by positivity) hE_ub (by norm_num)
    have h14 : Real.logb 10 ((10 : ℝ) ^ (14 : ℕ)) = 14 := by
      rw [Real.logb_pow, Real.logb_self_eq_one (by norm_num)]
      norm_num
    rw [h14] at hlogb
    linarith
  rw [abs_sub_comm, abs_of_pos (by linarith)]
  linarith

end

end BoatAcoustics
